import Mathlib

/-!
Verification of the name-confusion detector (auditd log analyser).

Go strings are modelled as `List Char`; Go maps as association lists with
first-match lookup and in-place update; fallible operations (`log.Fatal`)
return `Option`/`Except`.
-/

set_option maxRecDepth 10000

/-- Shorthand turning a Lean string literal into the character-list model of a
Go string. -/
def toL (s : String) : List Char := s.data

/-- Cons a character onto the first part of a split result
(helper for `goSplit`). -/
def consHead (c : Char) : List (List Char) → List (List Char)
  | [] => [[c]]
  | h :: t => (c :: h) :: t

/-- Fuelled worker for `goSplit`; the fuel only serves to make the recursion
structural, any fuel at least `s.length` gives the same answer
(`goSplitF_fuel`). -/
def goSplitF (sep : List Char) : Nat → List Char → List (List Char)
  | _, [] => [[]]
  | 0, _ :: _ => [[]]
  | fuel + 1, c :: rest =>
    if sep ≠ [] ∧ sep.isPrefixOf (c :: rest) then
      [] :: goSplitF sep fuel (List.drop (sep.length - 1) rest)
    else
      consHead c (goSplitF sep fuel rest)

/-- Go `strings.Split(s, sep)` for a non-empty separator: split around every
non-overlapping occurrence of `sep`, scanning left to right. -/
def goSplit (sep s : List Char) : List (List Char) :=
  goSplitF sep s.length s

theorem goSplitF_fuel_aux (sep : List Char) :
    ∀ (n : Nat) (s : List Char) (f1 f2 : Nat), s.length ≤ n → s.length ≤ f1 →
      s.length ≤ f2 → goSplitF sep f1 s = goSplitF sep f2 s := by
  intro n
  induction n with
  | zero =>
    intro s f1 f2 hn _ _
    have : s = [] := List.length_eq_zero.mp (Nat.le_zero.mp hn)
    subst this
    cases f1 <;> cases f2 <;> rfl
  | succ n ih =>
    intro s f1 f2 hn h1 h2
    match s with
    | [] => cases f1 <;> cases f2 <;> rfl
    | c :: rest =>
      simp only [List.length_cons] at hn h1 h2
      match f1, f2 with
      | a + 1, b + 1 =>
        simp only [goSplitF]
        by_cases hb : sep ≠ [] ∧ sep.isPrefixOf (c :: rest)
        · simp only [if_pos hb]
          have hd : (List.drop (sep.length - 1) rest).length ≤ rest.length := by
            have := List.length_drop (sep.length - 1) rest
            omega
          rw [ih (List.drop (sep.length - 1) rest) a b (by omega) (by omega) (by omega)]
        · simp only [if_neg hb]
          rw [ih rest a b (by omega) (by omega) (by omega)]

theorem goSplitF_fuel (sep : List Char) (fuel : Nat) (s : List Char)
    (h : s.length ≤ fuel) : goSplitF sep fuel s = goSplitF sep s.length s :=
  goSplitF_fuel_aux sep fuel s fuel s.length h h (le_refl _)

theorem goSplit_nil (sep : List Char) : goSplit sep [] = [[]] := rfl

theorem goSplit_cons (sep : List Char) (c : Char) (rest : List Char) :
    goSplit sep (c :: rest) =
      if sep ≠ [] ∧ sep.isPrefixOf (c :: rest) then
        [] :: goSplit sep (List.drop (sep.length - 1) rest)
      else
        consHead c (goSplit sep rest) := by
  show goSplitF sep (rest.length + 1) (c :: rest) = _
  simp only [goSplitF]
  by_cases hb : sep ≠ [] ∧ sep.isPrefixOf (c :: rest)
  · simp only [if_pos hb]
    have hd : (List.drop (sep.length - 1) rest).length ≤ rest.length := by
      have := List.length_drop (sep.length - 1) rest
      omega
    rw [goSplitF_fuel sep rest.length _ hd]
    rfl
  · simp only [if_neg hb]
    rw [goSplitF_fuel sep rest.length rest (le_refl _)]
    rfl

example : goSplit (toL ": ") (toL "a: b: c") = [toL "a", toL "b", toL "c"] := by decide

example : goSplit (toL "=") (toL "k=v") = [toL "k", toL "v"] := by decide

example : goSplit (toL ": ") (toL "ab") = [toL "ab"] := by decide

theorem consHead_ne_nil (c : Char) (l : List (List Char)) : consHead c l ≠ [] := by
  cases l <;> simp [consHead]

theorem consHead_length (c : Char) (l : List (List Char)) (h : l ≠ []) :
    (consHead c l).length = l.length := by
  cases l with
  | nil => exact absurd rfl h
  | cons a t => simp [consHead]

theorem goSplit_ne_nil (sep s : List Char) : goSplit sep s ≠ [] := by
  cases s with
  | nil => rw [goSplit_nil]; simp
  | cons c rest =>
    rw [goSplit_cons]
    by_cases hb : sep ≠ [] ∧ sep.isPrefixOf (c :: rest)
    · rw [if_pos hb]; simp
    · rw [if_neg hb]; exact consHead_ne_nil c _

theorem goSplit_singleton (sep : List Char) :
    ∀ (s x : List Char), goSplit sep s = [x] → x = s := by
  intro s
  induction s with
  | nil =>
    intro x h
    rw [goSplit_nil] at h
    exact (List.cons.inj h).1.symm
  | cons c rest ih =>
    intro x h
    rw [goSplit_cons] at h
    by_cases hb : sep ≠ [] ∧ sep.isPrefixOf (c :: rest)
    · rw [if_pos hb] at h
      have htail : goSplit sep (List.drop (sep.length - 1) rest) = [] := by
        have := congrArg List.tail h
        simpa using this
      exact absurd htail (goSplit_ne_nil _ _)
    · rw [if_neg hb] at h
      obtain ⟨hh, tl, hrest⟩ : ∃ hh tl, goSplit sep rest = hh :: tl := by
        cases hr : goSplit sep rest with
        | nil => exact absurd hr (goSplit_ne_nil _ _)
        | cons a bs => exact ⟨a, bs, rfl⟩
      rw [hrest] at h
      simp only [consHead] at h
      obtain ⟨hx, htl⟩ := List.cons.inj h
      have hhr : hh = rest := ih hh (by rw [hrest, htl])
      rw [← hx, hhr]

/-- Count-based length of a single-character split: the number of parts is the
number of separator characters plus one. -/
theorem goSplit_single_length (c : Char) :
    ∀ (s : List Char), (goSplit [c] s).length = s.count c + 1 := by
  intro s
  induction s with
  | nil => rw [goSplit_nil]; simp
  | cons x rest ih =>
    rw [goSplit_cons]
    by_cases hx : c = x
    · subst hx
      have hb : ([c] : List Char) ≠ [] ∧ List.isPrefixOf [c] (c :: rest) := by
        refine ⟨by simp, ?_⟩
        simp [List.isPrefixOf]
      rw [if_pos hb]
      have hdrop : (([c] : List Char).length - 1) = 0 := by simp
      rw [hdrop, List.drop_zero]
      simp only [List.length_cons]
      rw [ih]
      simp [List.count_cons]
    · have hb : ¬ (([c] : List Char) ≠ [] ∧ List.isPrefixOf [c] (x :: rest)) := by
        intro hcon
        have h2 := hcon.2
        simp only [List.isPrefixOf, List.isPrefixOf_nil_left, Bool.and_true,
          beq_iff_eq] at h2
        exact hx h2
      rw [if_neg hb]
      rw [consHead_length x _ (goSplit_ne_nil _ _), ih, List.count_cons]
      have hne : ¬ (c == x) = true := by
        simp only [beq_iff_eq]
        exact hx
      have hne2 : ¬ (x == c) = true := by
        simp only [beq_iff_eq]
        exact fun hcon => hx hcon.symm
      simp [hne, hne2]

/-- Go map read with comma-ok (`v, ok := m[k]`): first matching key in the
association list. -/
def kvGet {α : Type} : List (List Char × α) → List Char → Option α
  | [], _ => none
  | (k', v) :: rest, k => if k' = k then some v else kvGet rest k

/-- Go map write (`m[k] = v`): replace the value at an existing key, else
append a fresh binding. -/
def kvSet {α : Type} : List (List Char × α) → List Char → α → List (List Char × α)
  | [], k, v => [(k, v)]
  | (k', v') :: rest, k, v =>
    if k' = k then (k', v) :: rest else (k', v') :: kvSet rest k v

/-- Go map delete (`delete(m, k)`). -/
def kvErase {α : Type} : List (List Char × α) → List Char → List (List Char × α)
  | [], _ => []
  | (k', v) :: rest, k =>
    if k' = k then kvErase rest k else (k', v) :: kvErase rest k

theorem kvGet_kvSet_same {α : Type} (m : List (List Char × α)) (k : List Char)
    (v : α) : kvGet (kvSet m k v) k = some v := by
  induction m with
  | nil => simp [kvSet, kvGet]
  | cons p rest ih =>
    obtain ⟨k', v'⟩ := p
    by_cases h : k' = k
    · simp [kvSet, kvGet, h]
    · simp [kvSet, kvGet, h, ih]

theorem kvGet_kvSet_ne {α : Type} (m : List (List Char × α)) (k q : List Char)
    (v : α) (h : q ≠ k) : kvGet (kvSet m k v) q = kvGet m q := by
  have hkq : ¬ (k = q) := fun hc => h hc.symm
  induction m with
  | nil => simp [kvSet, kvGet, hkq]
  | cons p rest ih =>
    obtain ⟨k', v'⟩ := p
    by_cases hk : k' = k
    · simp [kvSet, kvGet, hk, hkq]
    · simp only [kvSet, if_neg hk, kvGet]
      by_cases hq : k' = q
      · simp [hq]
      · simp [hq, ih]

theorem kvGet_kvErase_same {α : Type} (m : List (List Char × α)) (k : List Char) :
    kvGet (kvErase m k) k = none := by
  induction m with
  | nil => simp [kvErase, kvGet]
  | cons p rest ih =>
    obtain ⟨k', v'⟩ := p
    by_cases h : k' = k
    · simp [kvErase, h, ih]
    · simp [kvErase, h, kvGet, ih]

theorem mem_kvSet {α : Type} (m : List (List Char × α)) (k : List Char) (v : α)
    (p : List Char × α) (h : p ∈ kvSet m k v) : p = (k, v) ∨ p ∈ m := by
  induction m with
  | nil =>
    simp [kvSet] at h
    exact Or.inl h
  | cons q rest ih =>
    obtain ⟨k', v'⟩ := q
    by_cases hk : k' = k
    · simp only [kvSet, if_pos hk, List.mem_cons] at h
      rcases h with h1 | h1
      · rw [hk] at h1
        exact Or.inl h1
      · exact Or.inr (List.mem_cons_of_mem _ h1)
    · simp only [kvSet, if_neg hk, List.mem_cons] at h
      rcases h with h1 | h1
      · exact Or.inr (by simp [h1])
      · rcases ih h1 with h2 | h2
        · exact Or.inl h2
        · exact Or.inr (List.mem_cons_of_mem _ h2)

theorem mem_kvErase {α : Type} (m : List (List Char × α)) (k : List Char)
    (p : List Char × α) (h : p ∈ kvErase m k) : p ∈ m := by
  induction m with
  | nil =>
    simp only [kvErase] at h
    exact h
  | cons q rest ih =>
    obtain ⟨k', v'⟩ := q
    by_cases hk : k' = k
    · simp only [kvErase, if_pos hk] at h
      exact List.mem_cons_of_mem _ (ih h)
    · simp only [kvErase, if_neg hk, List.mem_cons] at h
      rcases h with h1 | h1
      · simp [h1]
      · exact List.mem_cons_of_mem _ (ih h1)

/-- Key of the syscall-audit message id field, accumulated across bare
tokens. -/
def msgKey : List Char := toL "msg"

/-- Key of the process-title field, accumulated across bare tokens. -/
def proctitleKey : List Char := toL "proctitle"

/-- Loop body of the source's `ParseKVPairs`: walk the space-split tokens,
splitting each on `=`; two parts store a binding, one part is a bare token
handled by the msg/proctitle accumulation cascade, anything else is a fatal
parse error (`log.Fatal`, modelled as `none`). -/
def goParseKVLoop :
    List (List Char) → List (List Char × List Char) →
      Option (List (List Char × List Char))
  | [], result => some result
  | entry :: rest, result =>
    match goSplit (toL "=") entry with
    | [k, v] => goParseKVLoop rest (kvSet result k v)
    | [v0] =>
      match kvGet result msgKey with
      | some m => goParseKVLoop rest (kvSet result msgKey (m ++ ' ' :: v0))
      | none =>
        match kvGet result proctitleKey with
        | some m => goParseKVLoop rest (kvSet result proctitleKey (m ++ ' ' :: v0))
        | none => if v0 = [] then goParseKVLoop rest result else none
    | _ => none

/-- The source's `ParseKVPairs`: split the line on spaces and run the token
loop on an empty result map. -/
def goParseKVPairs (s : List Char) : Option (List (List Char × List Char)) :=
  goParseKVLoop (goSplit (toL " ") s) []

example : goParseKVPairs (toL "type=SYSCALL msg=audit(1:2)") =
    some [(toL "type", toL "SYSCALL"), (toL "msg", toL "audit(1:2)")] := by decide

example : goParseKVPairs (toL "msg=a b c") = some [(toL "msg", toL "a b c")] := by
  decide

/-- Split on the first occurrence of the separator, following the spec's
wording for the Record Builder contract ("splits into exactly two parts on the
first occurrence"); compared below against the source's split-on-every-
occurrence behaviour. -/
def specSplitFirst (sep : List Char) : List Char → Option (List Char × List Char)
  | [] => none
  | c :: rest =>
    if sep ≠ [] ∧ sep.isPrefixOf (c :: rest) then
      some ([], List.drop (sep.length - 1) rest)
    else
      (specSplitFirst sep rest).map (fun p => (c :: p.1, p.2))

/-- When the full split yields exactly two parts, they agree with the
first-occurrence split. -/
theorem goSplit_pair_specSplitFirst (sep : List Char) :
    ∀ (s h b : List Char), goSplit sep s = [h, b] →
      specSplitFirst sep s = some (h, b) := by
  intro s
  induction s with
  | nil =>
    intro h b hsplit
    rw [goSplit_nil] at hsplit
    simp at hsplit
  | cons c rest ih =>
    intro h b hsplit
    rw [goSplit_cons] at hsplit
    by_cases hb : sep ≠ [] ∧ sep.isPrefixOf (c :: rest)
    · rw [if_pos hb] at hsplit
      obtain ⟨hh1, hh2⟩ := List.cons.inj hsplit
      simp only [specSplitFirst, if_pos hb]
      rw [← hh1, goSplit_singleton sep _ b hh2]
    · rw [if_neg hb] at hsplit
      obtain ⟨hh, tl, hrest⟩ : ∃ hh tl, goSplit sep rest = hh :: tl := by
        cases hr : goSplit sep rest with
        | nil => exact absurd hr (goSplit_ne_nil _ _)
        | cons a bs => exact ⟨a, bs, rfl⟩
      rw [hrest] at hsplit
      simp only [consHead] at hsplit
      obtain ⟨hx, htl⟩ := List.cons.inj hsplit
      have hr2 : goSplit sep rest = [hh, b] := by rw [hrest, htl]
      have hspec := ih hh b hr2
      simp only [specSplitFirst, if_neg hb, hspec, Option.map]
      rw [← hx]

/-- Tokens with no separator character split into themselves alone. -/
theorem goSplit_single_of_not_mem (c : Char) (t : List Char) (h : c ∉ t) :
    goSplit [c] t = [t] := by
  have hcount : t.count c = 0 := List.count_eq_zero.mpr h
  have hlen : (goSplit [c] t).length = 1 := by
    rw [goSplit_single_length, hcount]
  obtain ⟨x, hx⟩ : ∃ x, goSplit [c] t = [x] := by
    cases hg : goSplit [c] t with
    | nil => exact absurd hg (goSplit_ne_nil _ _)
    | cons a bs =>
      rw [hg] at hlen
      simp only [List.length_cons] at hlen
      have hbs : bs = [] := List.length_eq_zero.mp (by omega)
      exact ⟨a, by rw [hbs]⟩
  rw [hx, goSplit_singleton [c] t x hx]

/-- Lists of length at least three start with three elements. -/
theorem exists_cons_cons_cons {α : Type} (l : List α) (h : 3 ≤ l.length) :
    ∃ a b c r, l = a :: b :: c :: r := by
  match l with
  | a :: b :: c :: r => exact ⟨a, b, c, r, rfl⟩
  | [] => simp at h
  | [_] => simp at h
  | [_, _] => simp at h

/-- C8: in the KV-Line Parser, a space-delimited token with no equals sign is
appended (space-joined) to an existing msg value; failing that, to an existing
proctitle value; failing both, an empty token is skipped with no change and
any other bare token is a fatal parse error; a token with two or more equals
signs is a fatal parse error. -/
theorem goParseKVLoop_bare_token_cascade :
    ∀ (t : List Char) (rest : List (List Char))
      (result : List (List Char × List Char)),
      (∀ m, '=' ∉ t → kvGet result msgKey = some m →
        goParseKVLoop (t :: rest) result =
          goParseKVLoop rest (kvSet result msgKey (m ++ ' ' :: t)))
      ∧ (∀ p, '=' ∉ t → kvGet result msgKey = none →
          kvGet result proctitleKey = some p →
        goParseKVLoop (t :: rest) result =
          goParseKVLoop rest (kvSet result proctitleKey (p ++ ' ' :: t)))
      ∧ (t = [] → kvGet result msgKey = none →
          kvGet result proctitleKey = none →
        goParseKVLoop (t :: rest) result = goParseKVLoop rest result)
      ∧ (t ≠ [] → '=' ∉ t → kvGet result msgKey = none →
          kvGet result proctitleKey = none →
        goParseKVLoop (t :: rest) result = none)
      ∧ (2 ≤ t.count '=' → goParseKVLoop (t :: rest) result = none) := by
  intro t rest result
  have heq : toL "=" = ['='] := rfl
  refine ⟨?_, ?_, ?_, ?_, ?_⟩
  · intro m hmem hmsg
    have hsp : goSplit (toL "=") t = [t] := by
      rw [heq]
      exact goSplit_single_of_not_mem '=' t hmem
    simp only [goParseKVLoop, hsp, hmsg]
  · intro p hmem hmsg hpt
    have hsp : goSplit (toL "=") t = [t] := by
      rw [heq]
      exact goSplit_single_of_not_mem '=' t hmem
    simp only [goParseKVLoop, hsp, hmsg, hpt]
  · intro hnil hmsg hpt
    subst hnil
    have hsp : goSplit (toL "=") ([] : List Char) = [[]] := goSplit_nil _
    simp only [goParseKVLoop, hsp, hmsg, hpt]
    simp
  · intro hne hmem hmsg hpt
    have hsp : goSplit (toL "=") t = [t] := by
      rw [heq]
      exact goSplit_single_of_not_mem '=' t hmem
    simp only [goParseKVLoop, hsp, hmsg, hpt, if_neg hne]
  · intro hcount
    have hlen : 3 ≤ (goSplit (toL "=") t).length := by
      rw [heq, goSplit_single_length]
      omega
    obtain ⟨a, b, c, r, hshape⟩ := exists_cons_cons_cons _ hlen
    simp only [goParseKVLoop, hshape]

/-- Witness for C8: a bare token is appended to an existing msg value, and a
token with two equals signs is a fatal parse error. -/
theorem goParseKVLoop_bare_token_cascade_witness :
    goParseKVLoop [toL "x"] [(msgKey, toL "a")] = some [(msgKey, toL "a x")]
    ∧ goParseKVLoop [toL "a==b"] [] = none := by
  constructor
  · have h := (goParseKVLoop_bare_token_cascade (toL "x") []
      [(msgKey, toL "a")]).1 (toL "a") (by decide) (by decide)
    rw [h]
    decide
  · exact (goParseKVLoop_bare_token_cascade (toL "a==b") [] []).2.2.2.2
      (by decide)

/-- Error kinds of the Record builder: the header/body split failing its
exactly-two-parts check, or a fatal key-value parse inside a segment. -/
inductive RecErr where
  | invalidFormat
  | kvFatal
deriving DecidableEq

/-- Parsed auditd record (the source's `Record`). -/
structure GoRecord where
  type : List Char
  msg : List Char
  timestamp : List Char
  body : List (List Char × List Char)
deriving DecidableEq

/-- The source's `NewRecord`: split the raw line on every occurrence of
": "; any part count other than two is the fatal invalid-format error;
otherwise both segments are KV-parsed and the type/msg header fields read
out (missing keys give the Go zero value, the empty string). -/
def goNewRecord (rawstr : List Char) : Except RecErr GoRecord :=
  match goSplit (toL ": ") rawstr with
  | [headerRaw, bodyRaw] =>
    match goParseKVPairs headerRaw, goParseKVPairs bodyRaw with
    | some headers, some body =>
      Except.ok { type := (kvGet headers (toL "type")).getD [],
                  msg := (kvGet headers msgKey).getD [],
                  timestamp := [],
                  body := body }
    | _, _ => Except.error RecErr.kvFatal
  | _ => Except.error RecErr.invalidFormat

example : goNewRecord (toL "type=CWD msg=audit(1:2): cwd=\x22/tmp\x22") =
    Except.ok { type := toL "CWD", msg := toL "audit(1:2)", timestamp := [],
                body := [(toL "cwd", toL "\x22/tmp\x22")] } := rfl

/-- C6 (amended): the Record builder splits a raw line on every occurrence of
": "; the invalid-format fatal error is raised exactly when the number of
parts differs from two, and when there are exactly two parts they coincide
with the split at the first occurrence (header before, body after). -/
theorem goNewRecord_invalidFormat_iff (s : List Char) :
    (goNewRecord s = Except.error RecErr.invalidFormat ↔
      (goSplit (toL ": ") s).length ≠ 2)
    ∧ (∀ h b, goSplit (toL ": ") s = [h, b] →
        specSplitFirst (toL ": ") s = some (h, b)) := by
  constructor
  · cases hsp : goSplit (toL ": ") s with
    | nil => exact absurd hsp (goSplit_ne_nil _ _)
    | cons a l1 =>
      cases l1 with
      | nil =>
        simp only [goNewRecord, hsp]
        simp
      | cons b l2 =>
        cases l2 with
        | nil =>
          simp only [goNewRecord, hsp]
          constructor
          · intro hcon
            cases hha : goParseKVPairs a <;> cases hhb : goParseKVPairs b <;>
              simp [hha, hhb] at hcon
          · intro hcon
            simp at hcon
        | cons c l3 =>
          simp only [goNewRecord, hsp]
          simp
  · intro h b hsp
    exact goSplit_pair_specSplitFirst (toL ": ") s h b hsp

/-- Witness for C6: a line with exactly one ": " is not an invalid-format
error, and its split agrees with the first-occurrence split. -/
theorem goNewRecord_invalidFormat_iff_witness :
    goNewRecord (toL "a: b") ≠ Except.error RecErr.invalidFormat
    ∧ specSplitFirst (toL ": ") (toL "a: b") = some (toL "a", toL "b") := by
  constructor
  · intro h
    have := (goNewRecord_invalidFormat_iff (toL "a: b")).1.mp h
    exact this (by decide)
  · exact (goNewRecord_invalidFormat_iff (toL "a: b")).2 (toL "a") (toL "b")
      (by decide)

/-- Counterexample to C6 as stated: a line whose body segment contains a
further ": " does not parse successfully — the source splits on every
occurrence and rejects the three resulting parts as an invalid format —
although the first-occurrence split the claim describes exists and yields
exactly a header and a body. -/
theorem goNewRecord_extra_sep_counterexample :
    goNewRecord (toL "x: y: z") = Except.error RecErr.invalidFormat
    ∧ specSplitFirst (toL ": ") (toL "x: y: z") = some (toL "x", toL "y: z") :=
  ⟨rfl, rfl⟩

/-- Decimal digit parse modelling `strconv.Atoi` on the unsigned mode field;
the source discards the error value, which leaves zero on a failed scan. -/
def goAtoi (s : List Char) : Nat :=
  if s ≠ [] ∧ s.all (fun c => c.isDigit) then
    s.foldl (fun acc c => 10 * acc + (c.toNat - 48)) 0
  else 0

/-- Mode post-processing of the source's `NewInode`: base-10 parse of the
path-access record's mode field followed by the `uint16(mode)` conversion. -/
def newInodeMode (s : List Char) : Nat := goAtoi s % 65536

example : newInodeMode (toL "0100644") = 35108 := by decide

/-- Path operation extracted from one PATH record (the source's `Inode`).
Fields never consulted by the operations under verification (timestamp,
message id, process title, executable, and the syscall metadata other than
its success flag) are omitted, the success flag being inlined. -/
structure GoInode where
  inodeNum : List Char
  device : List Char
  path : List Char
  mode : Nat
  operation : List Char
  cwd : List Char
  syscallSuccess : Bool
deriving DecidableEq, Inhabited

/-- The source's `Inode.Name`: device and inode number joined with a pipe —
the identity of a filesystem object. -/
def GoInode.name (i : GoInode) : List Char := i.device ++ '|' :: i.inodeNum

/-- The null-path sentinel `"(null)"`: the syscall addressed the object by
file descriptor, so the recorded path is non-indicative. -/
def nullSentinel : List Char := toL "(null)"

/-- The source's `Inode.IsDir`: the mode masked with the literal `40000`
(decimal, exactly as written in the Go source) compared against 1. -/
def GoInode.IsDir (i : GoInode) : Bool := decide (1 < (i.mode &&& 40000))

/-- Go `strings.Trim`: remove leading and trailing characters of the cutset. -/
def goTrim (s cutset : List Char) : List Char :=
  ((s.dropWhile (fun c => cutset.contains c)).reverse.dropWhile
    (fun c => cutset.contains c)).reverse

/-- Go `strings.TrimSuffix`: drop one occurrence of the suffix, if present. -/
def goTrimSuffix (s suffix : List Char) : List Char :=
  if suffix.isSuffixOf s then s.take (s.length - suffix.length) else s

/-- Segment processor of the `path.Clean` model: skip empty and dot segments,
let dot-dot pop a previous segment (or survive at the start of a relative
path, or vanish at the root), and keep every other segment. -/
def cleanSegs : List (List Char) → List (List Char) → Bool → List (List Char)
  | [], acc, _ => acc.reverse
  | seg :: rest, acc, rooted =>
    if seg = [] ∨ seg = toL "." then cleanSegs rest acc rooted
    else if seg = toL ".." then
      match acc with
      | top :: acc2 =>
        if top = toL ".." then cleanSegs rest (seg :: acc) rooted
        else cleanSegs rest acc2 rooted
      | [] =>
        if rooted then cleanSegs rest [] rooted
        else cleanSegs rest [seg] rooted
    else cleanSegs rest (seg :: acc) rooted

/-- Join path segments with the separator character. -/
def joinSlash : List (List Char) → List Char
  | [] => []
  | [seg] => seg
  | seg :: rest => seg ++ '/' :: joinSlash rest

/-- Semantic model of Go `path.Clean`: lexical simplification removing
duplicate separators and dot and dot-dot elements, answering "." for an
empty relative result and keeping the leading separator of rooted paths. -/
def goPathClean (p : List Char) : List Char :=
  if p = [] then toL "." else
  let rooted : Bool := decide (p.head? = some '/')
  let out := cleanSegs (goSplit (toL "/") p) [] rooted
  let joined := joinSlash out
  if joined = [] then (if rooted then toL "/" else toL ".")
  else if rooted then '/' :: joined else joined

example : goPathClean (toL "/a//b/../c/") = toL "/a/c" := by decide

example : goPathClean (toL "../a") = toL "../a" := by decide

/-- Go `path.Join` on two elements: the non-empty elements joined with the
separator and then cleaned; all-empty input gives the empty path. -/
def goPathJoin (a b : List Char) : List Char :=
  if a = [] ∧ b = [] then []
  else if a = [] then goPathClean b
  else if b = [] then goPathClean a
  else goPathClean (a ++ '/' :: b)

/-- The source's `Inode.getAbsPath`: keep the path when either the working
directory or the path is blank, when the path is already absolute, or when
it is the null sentinel; otherwise join it onto the working directory. -/
def GoInode.getAbsPath (i : GoInode) : List Char :=
  if goTrim i.cwd [' '] = [] ∨ goTrim i.path [' '] = [] then i.path
  else if i.path.head? = some '/' ∨ i.path = nullSentinel then i.path
  else goPathJoin i.cwd i.path

/-- The source's `Inode.NormalizedPath`: absolute form, with one trailing
separator stripped for directories only. -/
def GoInode.normalizedPath (i : GoInode) : List Char :=
  if i.IsDir then goTrimSuffix i.getAbsPath (toL "/") else i.getAbsPath

example : GoInode.normalizedPath
    { inodeNum := toL "7", device := toL "08:01", path := toL "a",
      mode := 0, operation := toL "NORMAL", cwd := toL "/w",
      syscallSuccess := true } = toL "/w/a" := by decide

/-- Regular-file path action: mode field "0100644" base-10-parsed and
truncated to 16 bits, path carrying a trailing separator. -/
def regularFileAction : GoInode :=
  { inodeNum := toL "7", device := toL "08:01", path := toL "f/",
    mode := newInodeMode (toL "0100644"), operation := toL "NORMAL",
    cwd := [], syscallSuccess := true }

/-- Path action whose parsed mode value is exactly the S_IFDIR bit. -/
def sifdirAction : GoInode :=
  { inodeNum := toL "7", device := toL "08:01", path := toL "d/",
    mode := newInodeMode (toL "16384"), operation := toL "NORMAL",
    cwd := [], syscallSuccess := true }

/-- C7 (code evaluated at the failing input): the mode field "0100644" — a
regular file, whose S_IFDIR bit (octal 040000, value 16384) is clear — is
classified as a directory by the source's decimal-40000 mask and has its
trailing separator stripped; conversely the parsed mode value 16384, which
has S_IFDIR set, is classified as not a directory. -/
theorem isDir_mask_code_bug :
    GoInode.IsDir regularFileAction = true
    ∧ newInodeMode (toL "0100644") &&& 16384 = 0
    ∧ GoInode.normalizedPath regularFileAction = toL "f"
    ∧ GoInode.IsDir sifdirAction = false
    ∧ newInodeMode (toL "16384") &&& 16384 ≠ 0 := by
  refine ⟨rfl, rfl, rfl, rfl, ?_⟩
  decide

theorem goTrimSuffix_slash_append (q : List Char) :
    goTrimSuffix (q ++ ['/']) (toL "/") = q := by
  unfold goTrimSuffix
  have hsuf : (toL "/").isSuffixOf (q ++ ['/']) = true := by
    rw [List.isSuffixOf_iff_suffix]
    exact ⟨q, rfl⟩
  rw [if_pos hsuf]
  have hlen : (q ++ ['/']).length - (toL "/").length = q.length := by
    simp [toL]
  rw [hlen]
  exact List.take_left q ['/']

theorem goTrimSuffix_slash_of_no (p : List Char) (h : ¬ (toL "/") <:+ p) :
    goTrimSuffix p (toL "/") = p := by
  unfold goTrimSuffix
  rw [if_neg]
  intro hc
  exact h (List.isSuffixOf_iff_suffix.mp hc)

theorem no_double_slash_no_trailing (q : List Char)
    (h : ¬ (toL "//") <:+ (q ++ ['/'])) : ¬ (toL "/") <:+ q := by
  intro hc
  obtain ⟨r, hr⟩ := hc
  apply h
  refine ⟨r, ?_⟩
  have hds : (toL "//") = ['/', '/'] := rfl
  rw [hds, ← hr]
  have hsl : (toL "/") = ['/'] := rfl
  rw [hsl]
  simp

/-- One stripping pass leaves no trailing separator, provided the input does
not end in two consecutive separators. -/
theorem goTrimSuffix_slash_no_trailing (p : List Char)
    (h : ¬ (toL "//") <:+ p) : ¬ (toL "/") <:+ goTrimSuffix p (toL "/") := by
  by_cases hp : (toL "/") <:+ p
  · obtain ⟨q, hq⟩ := hp
    have hsl : (toL "/") = ['/'] := rfl
    rw [hsl] at hq
    rw [← hq, goTrimSuffix_slash_append]
    exact no_double_slash_no_trailing q (by rw [hq]; exact h)
  · rw [goTrimSuffix_slash_of_no p hp]
    exact hp

/-- A path whose space-trim is empty consists of spaces only, hence has no
trailing separator. -/
theorem goTrim_space_nil_no_slash (s : List Char) (h : goTrim s [' '] = []) :
    ¬ (toL "/") <:+ s := by
  intro hs
  obtain ⟨q, hq⟩ := hs
  have hmem : '/' ∈ s := by
    rw [← hq]
    have hsl : (toL "/") = ['/'] := rfl
    rw [hsl]
    simp
  unfold goTrim at h
  rw [List.reverse_eq_nil_iff] at h
  have h2 := (List.dropWhile_eq_nil_iff).mp h
  have hall : ∀ x ∈ s, (List.contains [' '] x) = true := by
    intro x hx
    rw [← List.takeWhile_append_dropWhile (fun c => List.contains [' '] c) s]
      at hx
    rcases List.mem_append.mp hx with h3 | h3
    · exact List.mem_takeWhile_imp h3
    · exact h2 x (List.mem_reverse.mpr h3)
  have := hall '/' hmem
  simp at this

/-- Condition under which `getAbsPath` returns the path unchanged: blank
working directory or path, an absolute path, or the null sentinel. -/
def absPathUntouched (i : GoInode) : Prop :=
  goTrim i.cwd [' '] = [] ∨ goTrim i.path [' '] = [] ∨
    i.path.head? = some '/' ∨ i.path = nullSentinel

theorem getAbsPath_untouched (i : GoInode) (h : absPathUntouched i) :
    i.getAbsPath = i.path := by
  unfold GoInode.getAbsPath
  rcases h with h | h | h | h
  · rw [if_pos (Or.inl h)]
  · rw [if_pos (Or.inr h)]
  · by_cases h0 : goTrim i.cwd [' '] = [] ∨ goTrim i.path [' '] = []
    · rw [if_pos h0]
    · rw [if_neg h0, if_pos (Or.inl h)]
  · by_cases h0 : goTrim i.cwd [' '] = [] ∨ goTrim i.path [' '] = []
    · rw [if_pos h0]
    · rw [if_neg h0, if_pos (Or.inr h)]

theorem nullSentinel_no_slash : ¬ (toL "/") <:+ nullSentinel := by
  intro hc
  have hb := List.isSuffixOf_iff_suffix.mpr hc
  exact absurd hb (by decide)

/-- The untouched condition survives one normalization pass (directory case),
given no doubled trailing separator. -/
theorem absPathUntouched_after_strip (i : GoInode) (hu : absPathUntouched i) :
    absPathUntouched { i with path := goTrimSuffix i.path (toL "/") } := by
  rcases hu with h | h | h | h
  · exact Or.inl h
  · have hns : ¬ (toL "/") <:+ i.path := goTrim_space_nil_no_slash i.path h
    rw [goTrimSuffix_slash_of_no i.path hns]
    exact Or.inr (Or.inl h)
  · by_cases hp : (toL "/") <:+ i.path
    · obtain ⟨q, hq⟩ := hp
      have hsl : (toL "/") = ['/'] := rfl
      rw [hsl] at hq
      cases q with
      | nil =>
        have hpath : goTrimSuffix i.path (toL "/") = [] := by
          rw [← hq, goTrimSuffix_slash_append]
        rw [hpath]
        exact Or.inr (Or.inl rfl)
      | cons c q2 =>
        have hpath : goTrimSuffix i.path (toL "/") = c :: q2 := by
          rw [← hq, goTrimSuffix_slash_append]
        have hhead : i.path.head? = some c := by
          rw [← hq]
          simp
        rw [hhead] at h
        have hc : c = '/' := by
          simpa using h
        rw [hpath]
        refine Or.inr (Or.inr (Or.inl ?_))
        rw [hc]
        rfl
    · rw [goTrimSuffix_slash_of_no i.path hp]
      exact Or.inr (Or.inr (Or.inl h))
  · rw [h, goTrimSuffix_slash_of_no nullSentinel nullSentinel_no_slash]
    exact Or.inr (Or.inr (Or.inr rfl))

/-- C9 (amended): directory trailing-separator stripping applied twice equals
applied once for every path that does not end in two consecutive separators,
and for every path action whose absolute-path conversion is the identity
(blank working directory or path, absolute path, or the null sentinel) and
whose path does not end in two consecutive separators, normalizing an
already-normalized path returns it unchanged. -/
theorem normalizedPath_idempotent_amended (p : List Char) (i : GoInode) :
    (¬ (toL "//") <:+ p →
      goTrimSuffix (goTrimSuffix p (toL "/")) (toL "/") =
        goTrimSuffix p (toL "/"))
    ∧ (absPathUntouched i → ¬ (toL "//") <:+ i.path →
      GoInode.normalizedPath { i with path := GoInode.normalizedPath i } =
        GoInode.normalizedPath i) := by
  constructor
  · intro hp
    exact goTrimSuffix_slash_of_no _ (goTrimSuffix_slash_no_trailing p hp)
  · intro hu hd
    by_cases hdir : i.IsDir = true
    · have hni : GoInode.normalizedPath i = goTrimSuffix i.path (toL "/") := by
        unfold GoInode.normalizedPath
        rw [if_pos hdir, getAbsPath_untouched i hu]
      rw [hni]
      have hu2 : absPathUntouched { i with path := goTrimSuffix i.path (toL "/") } :=
        absPathUntouched_after_strip i hu
      have hdir2 : ({ i with path := goTrimSuffix i.path (toL "/") } : GoInode).IsDir = true :=
        hdir
      unfold GoInode.normalizedPath
      rw [if_pos hdir2, getAbsPath_untouched _ hu2]
      exact goTrimSuffix_slash_of_no _ (goTrimSuffix_slash_no_trailing i.path hd)
    · have hni : GoInode.normalizedPath i = i.path := by
        unfold GoInode.normalizedPath
        rw [if_neg hdir, getAbsPath_untouched i hu]
      rw [hni]
      have heta : ({ i with path := i.path } : GoInode) = i := rfl
      rw [heta]
      exact hni

/-- Directory path action with a doubled trailing separator and a blank
working directory. -/
def doubleSlashDirAction : GoInode :=
  { inodeNum := toL "9", device := toL "08:01", path := toL "a//",
    mode := 40000, operation := toL "CREATE", cwd := [],
    syscallSuccess := true }

/-- Counterexample to C9 as stated: normalizing the already-normalized path
of a directory action whose raw path ends in two separators strips a further
separator, so path normalization is not idempotent, and stripping twice
differs from stripping once. -/
theorem normalizedPath_not_idempotent_counterexample :
    GoInode.normalizedPath doubleSlashDirAction = toL "a/"
    ∧ GoInode.normalizedPath
        { doubleSlashDirAction with
          path := GoInode.normalizedPath doubleSlashDirAction } = toL "a"
    ∧ toL "a" ≠ toL "a/"
    ∧ goTrimSuffix (goTrimSuffix (toL "a//") (toL "/")) (toL "/") ≠
        goTrimSuffix (toL "a//") (toL "/") := by
  refine ⟨rfl, rfl, by decide, by decide⟩

/-- Absolute directory path action with a single trailing separator. -/
def absDirAction : GoInode :=
  { inodeNum := toL "3", device := toL "08:01", path := toL "/w/d/",
    mode := 40000, operation := toL "CREATE", cwd := toL "/w",
    syscallSuccess := true }

/-- Witness for the amended C9 at a concrete path and path action. -/
theorem normalizedPath_idempotent_amended_witness :
    goTrimSuffix (goTrimSuffix (toL "b/") (toL "/")) (toL "/") =
      goTrimSuffix (toL "b/") (toL "/")
    ∧ GoInode.normalizedPath
        { absDirAction with path := GoInode.normalizedPath absDirAction } =
        GoInode.normalizedPath absDirAction := by
  have hnd1 : ¬ (toL "//") <:+ (toL "b/") := by
    intro hc
    exact absurd (List.isSuffixOf_iff_suffix.mpr hc) (by decide)
  have hnd2 : ¬ (toL "//") <:+ absDirAction.path := by
    intro hc
    exact absurd (List.isSuffixOf_iff_suffix.mpr hc) (by decide)
  have hu : absPathUntouched absDirAction := Or.inr (Or.inr (Or.inl rfl))
  exact ⟨(normalizedPath_idempotent_amended (toL "b/") absDirAction).1 hnd1,
    (normalizedPath_idempotent_amended (toL "b/") absDirAction).2 hu hnd2⟩

/-- PATH operation names dispatched by the Timeline. -/
def opCREATE : List Char := toL "CREATE"

/-- The PARENT operation name. -/
def opPARENT : List Char := toL "PARENT"

/-- The NORMAL operation name. -/
def opNORMAL : List Char := toL "NORMAL"

/-- The DELETE operation name. -/
def opDELETE : List Char := toL "DELETE"

/-- The UNKNOWN operation name. -/
def opUNKNOWN : List Char := toL "UNKNOWN"

/-- Violation report pairing a recorded CREATE with a mismatching USE (the
source's `Report`). -/
structure GoReport where
  create : GoInode
  use : GoInode
deriving DecidableEq

/-- Timeline state: the history mapping plus the observable reporter state —
violations collected for the buffered (JSON) mode, violations printed
immediately in line mode, and the structured documents emitted at close. -/
structure Timeline where
  history : List (List Char × GoInode)
  reports : List GoReport
  printed : List GoReport
  flushed : List (List GoReport)
deriving DecidableEq

/-- The source's `NewTimeline`. -/
def newTimeline : Timeline :=
  { history := [], reports := [], printed := [], flushed := [] }

/-- The source's `Timeline.Report`: the buffered (JSON) mode collects the
pair for later (`ReportLater`), the immediate mode prints it now
(`ReportImmediatly`). -/
def timelineReport (json : Bool) (tm : Timeline) (c u : GoInode) : Timeline :=
  if json then { tm with reports := tm.reports ++ [{ create := c, use := u }] }
  else { tm with printed := tm.printed ++ [{ create := c, use := u }] }

/-- Violations reported so far: collected in buffered mode, printed in
immediate mode. -/
def reported (json : Bool) (tm : Timeline) : List GoReport :=
  if json then tm.reports else tm.printed

/-- The `recordCreate` closure of `Timeline.Apply`: ignore failed syscalls
and the null sentinel, otherwise record the CREATE under its identity. -/
def recordCreate (tm : Timeline) (i : GoInode) : Timeline :=
  if i.syscallSuccess = false then tm
  else if i.path = nullSentinel then tm
  else { tm with history := kvSet tm.history i.name i }

/-- The `verifyUse` closure of `Timeline.Apply`: ignore failed syscalls and
the null sentinel, look up the recorded CREATE for the identity, and report
a violation exactly when the normalized paths disagree. (The optional
O_CREAT diagnostic log line is output-only and not modelled.) -/
def verifyUse (json : Bool) (tm : Timeline) (i : GoInode) : Timeline :=
  if i.syscallSuccess = false then tm
  else if i.path = nullSentinel then tm
  else
    match kvGet tm.history i.name with
    | none => tm
    | some c =>
      if c.normalizedPath ≠ i.normalizedPath then timelineReport json tm c i
      else tm

/-- The source's `Timeline.Apply`: dispatch on the PATH operation name; the
default case is `log.Fatal`, modelled as `none`. -/
def timelineApply (json : Bool) (tm : Timeline) (i : GoInode) :
    Option Timeline :=
  if i.operation = opCREATE then some (recordCreate tm i)
  else if i.operation = opPARENT then some (verifyUse json tm i)
  else if i.operation = opNORMAL then some (verifyUse json tm i)
  else if i.operation = opDELETE then
    some { tm with history := kvErase tm.history i.name }
  else if i.operation = opUNKNOWN then some tm
  else none

/-- Index-decrementing loop of `Timeline.ApplyInodes`: apply the element at
index `k - 1`, then continue downward; a fatal apply aborts the run. -/
def applyInodesAux (json : Bool) (inodes : List GoInode) :
    Nat → Timeline → Option Timeline
  | 0, tm => some tm
  | k + 1, tm =>
    match timelineApply json tm (inodes.getD k default) with
    | none => none
    | some tm2 => applyInodesAux json inodes k tm2

/-- The source's `Timeline.ApplyInodes`: iterate from the last index down to
index zero. -/
def timelineApplyInodes (json : Bool) (tm : Timeline)
    (inodes : List GoInode) : Option Timeline :=
  applyInodesAux json inodes inodes.length tm

/-- The source's `Timeline.processPendingRepots`: with no collected reports
do nothing; otherwise serialize the full ordered list as one structured
document (the pretty flag affects only formatting, not content). -/
def processPendingRepots (_pretty : Bool) (tm : Timeline) : Timeline :=
  if tm.reports = [] then tm
  else { tm with flushed := tm.flushed ++ [tm.reports] }

/-- The source's `Timeline.Close`. -/
def timelineClose (pretty : Bool) (tm : Timeline) : Timeline :=
  processPendingRepots pretty tm

/-- The run loop of `ParseLog` at the Timeline layer: apply each event's
inodes in file order against a fresh timeline, then close it exactly once
(the deferred `tm.Close()`). -/
def runTimeline (json pretty : Bool) (events : List (List GoInode)) :
    Option Timeline :=
  (events.foldlM (fun tm ev => timelineApplyInodes json tm ev)
    newTimeline).map (timelineClose pretty)

theorem applyInodesAux_take (json : Bool) (inodes : List GoInode) :
    ∀ (k : Nat), k ≤ inodes.length → ∀ tm,
      applyInodesAux json inodes k tm =
        ((inodes.take k).reverse).foldlM (timelineApply json) tm := by
  intro k
  induction k with
  | zero =>
    intro _ tm
    simp [applyInodesAux]
  | succ k ih =>
    intro hk tm
    have hk2 : k < inodes.length := by omega
    have hget : inodes[k]? = some (inodes.getD k default) := by
      rw [List.getElem?_eq_getElem hk2]
      rw [List.getD_eq_getElem _ _ hk2]
    have htake : inodes.take (k + 1) =
        inodes.take k ++ [inodes.getD k default] := by
      rw [List.take_succ, hget]
      rfl
    rw [htake, List.reverse_append]
    have hr : (([inodes.getD k default] : List GoInode).reverse ++
        (inodes.take k).reverse) =
        inodes.getD k default :: (inodes.take k).reverse := by simp
    rw [hr, List.foldlM_cons]
    have heq : applyInodesAux json inodes (k + 1) tm =
        (match timelineApply json tm (inodes.getD k default) with
         | none => none
         | some tm2 => applyInodesAux json inodes k tm2) := rfl
    rw [heq]
    cases happ : timelineApply json tm (inodes.getD k default) with
    | none => rfl
    | some tm2 => exact ih (by omega) tm2

/-- C2: the Timeline applies an event's path actions in exactly the reverse
of their trace order — the index-decrementing loop of `ApplyInodes` computes
the monadic fold of `Apply` over the reversed action list. -/
theorem applyInodes_reverse_order (json : Bool) (tm : Timeline)
    (inodes : List GoInode) :
    timelineApplyInodes json tm inodes =
      (inodes.reverse).foldlM (timelineApply json) tm := by
  unfold timelineApplyInodes
  rw [applyInodesAux_take json inodes inodes.length (le_refl _) tm,
    List.take_length]

theorem timelineReport_history (json : Bool) (tm : Timeline) (c u : GoInode) :
    (timelineReport json tm c u).history = tm.history := by
  cases json <;> rfl

theorem timelineReport_reported (json : Bool) (tm : Timeline) (c u : GoInode) :
    reported json (timelineReport json tm c u) =
      reported json tm ++ [{ create := c, use := u }] := by
  cases json <;> rfl

theorem recordCreate_fields (tm : Timeline) (i : GoInode) :
    (recordCreate tm i).reports = tm.reports ∧
    (recordCreate tm i).printed = tm.printed ∧
    (recordCreate tm i).flushed = tm.flushed := by
  unfold recordCreate
  by_cases hs : i.syscallSuccess = false
  · rw [if_pos hs]
    exact ⟨rfl, rfl, rfl⟩
  · rw [if_neg hs]
    by_cases hn : i.path = nullSentinel
    · rw [if_pos hn]
      exact ⟨rfl, rfl, rfl⟩
    · rw [if_neg hn]
      exact ⟨rfl, rfl, rfl⟩

theorem verifyUse_history (json : Bool) (tm : Timeline) (i : GoInode) :
    (verifyUse json tm i).history = tm.history := by
  unfold verifyUse
  by_cases hs : i.syscallSuccess = false
  · rw [if_pos hs]
  · rw [if_neg hs]
    by_cases hn : i.path = nullSentinel
    · rw [if_pos hn]
    · rw [if_neg hn]
      cases hc : kvGet tm.history i.name with
      | none => rfl
      | some c =>
        by_cases hm : c.normalizedPath ≠ i.normalizedPath
        · show (if c.normalizedPath ≠ i.normalizedPath then
              timelineReport json tm c i else tm).history = tm.history
          rw [if_pos hm]
          exact timelineReport_history json tm c i
        · show (if c.normalizedPath ≠ i.normalizedPath then
              timelineReport json tm c i else tm).history = tm.history
          rw [if_neg hm]

theorem verifyUse_no_create (json : Bool) (tm : Timeline) (i : GoInode)
    (h : kvGet tm.history i.name = none) : verifyUse json tm i = tm := by
  unfold verifyUse
  by_cases hs : i.syscallSuccess = false
  · rw [if_pos hs]
  · rw [if_neg hs]
    by_cases hn : i.path = nullSentinel
    · rw [if_pos hn]
    · rw [if_neg hn, h]

theorem timelineApply_use (json : Bool) (tm : Timeline) (u : GoInode)
    (hu : u.operation = opNORMAL ∨ u.operation = opPARENT) :
    timelineApply json tm u = some (verifyUse json tm u) := by
  unfold timelineApply
  rcases hu with h | h <;> rw [h]
  · rw [if_neg (by decide), if_neg (by decide), if_pos rfl]
  · rw [if_neg (by decide), if_pos rfl]

/-- C1: applying a successful, non-null USE (NORMAL or PARENT) whose identity
holds a recorded CREATE reports exactly the violation pairing that CREATE
with this USE when the normalized paths differ (one appended report, history
untouched), and leaves the timeline unchanged when they agree. -/
theorem verifyUse_reports_iff_mismatch (json : Bool) (tm : Timeline)
    (i c : GoInode)
    (hop : i.operation = opNORMAL ∨ i.operation = opPARENT)
    (hs : i.syscallSuccess = true)
    (hp : i.path ≠ nullSentinel)
    (hc : kvGet tm.history i.name = some c) :
    timelineApply json tm i =
      some (if c.normalizedPath = i.normalizedPath then tm
            else timelineReport json tm c i)
    ∧ reported json (timelineReport json tm c i) =
        reported json tm ++ [{ create := c, use := i }]
    ∧ (timelineReport json tm c i).history = tm.history := by
  refine ⟨?_, timelineReport_reported json tm c i,
    timelineReport_history json tm c i⟩
  rw [timelineApply_use json tm i hop]
  congr 1
  unfold verifyUse
  rw [hs, if_neg (by decide : ¬(true = false)), if_neg hp, hc]
  show (if c.normalizedPath ≠ i.normalizedPath then timelineReport json tm c i
        else tm) =
    (if c.normalizedPath = i.normalizedPath then tm
     else timelineReport json tm c i)
  by_cases heq : c.normalizedPath = i.normalizedPath
  · rw [if_neg (not_not_intro heq), if_pos heq]
  · rw [if_pos heq, if_neg heq]

/-- Recorded CREATE action used by concrete witnesses. -/
def createdA : GoInode :=
  { inodeNum := toL "5", device := toL "00:1", path := toL "a",
    mode := 0, operation := opCREATE, cwd := [], syscallSuccess := true }

/-- USE action on the same identity under a different path. -/
def useB : GoInode :=
  { inodeNum := toL "5", device := toL "00:1", path := toL "b",
    mode := 0, operation := opNORMAL, cwd := [], syscallSuccess := true }

/-- Timeline already holding the CREATE for the shared identity. -/
def tmA : Timeline :=
  { history := [(GoInode.name createdA, createdA)], reports := [],
    printed := [], flushed := [] }

/-- Witness for C1 at a concrete mismatching CREATE/USE pair. -/
theorem verifyUse_reports_iff_mismatch_witness :
    timelineApply true tmA useB =
      some (if (GoInode.normalizedPath createdA) =
            (GoInode.normalizedPath useB) then tmA
            else timelineReport true tmA createdA useB)
    ∧ reported true (timelineReport true tmA createdA useB) =
        reported true tmA ++ [{ create := createdA, use := useB }] := by
  have h := verifyUse_reports_iff_mismatch true tmA useB createdA
    (Or.inl rfl) rfl (by decide) (by decide)
  exact ⟨h.1, h.2.1⟩

/-- C3: a CREATE whose syscall failed, or whose raw path is the null
sentinel, changes nothing at all in the timeline; in particular, when the
identity held no earlier CREATE, a following USE of the same identity still
finds none and the state after the pair equals the initial state. -/
theorem failed_create_ignored (json : Bool) (tm : Timeline) (i u : GoInode)
    (hop : i.operation = opCREATE)
    (hfail : i.syscallSuccess = false ∨ i.path = nullSentinel) :
    timelineApply json tm i = some tm
    ∧ (kvGet tm.history i.name = none →
       (u.operation = opNORMAL ∨ u.operation = opPARENT) → u.name = i.name →
       (timelineApply json tm i).bind (fun t => timelineApply json t u) =
         some tm) := by
  have h1 : timelineApply json tm i = some (recordCreate tm i) := by
    unfold timelineApply
    rw [hop, if_pos rfl]
  have h2 : recordCreate tm i = tm := by
    unfold recordCreate
    rcases hfail with h | h
    · rw [if_pos h]
    · by_cases hsu : i.syscallSuccess = false
      · rw [if_pos hsu]
      · rw [if_neg hsu, if_pos h]
  constructor
  · rw [h1, h2]
  · intro hnone hu hname
    rw [h1, h2]
    show timelineApply json tm u = some tm
    rw [timelineApply_use json tm u hu,
      verifyUse_no_create json tm u (by rw [hname]; exact hnone)]

/-- CREATE action with a failed syscall on the witnesses' shared identity. -/
def failedCreateA : GoInode :=
  { inodeNum := toL "5", device := toL "00:1", path := toL "a",
    mode := 0, operation := opCREATE, cwd := [], syscallSuccess := false }

/-- Witness for C3: the failed CREATE leaves the empty timeline untouched,
and the following USE still reports nothing. -/
theorem failed_create_ignored_witness :
    timelineApply true newTimeline failedCreateA = some newTimeline
    ∧ (timelineApply true newTimeline failedCreateA).bind
        (fun t => timelineApply true t useB) = some newTimeline := by
  have h := failed_create_ignored true newTimeline failedCreateA useB rfl
    (Or.inl rfl)
  exact ⟨h.1, h.2 rfl (Or.inl rfl) rfl⟩

/-- C4: DELETE removes its identity from the history unconditionally — no
success check — and the full sequence CREATE, DELETE, NORMAL on one identity
reports no violation. -/
theorem delete_clears_history (json : Bool) (tm : Timeline) (c d u : GoInode)
    (hcop : c.operation = opCREATE)
    (hdop : d.operation = opDELETE)
    (huop : u.operation = opNORMAL)
    (hn1 : d.name = c.name) (hn2 : u.name = c.name) :
    timelineApply json tm d =
      some { tm with history := kvErase tm.history d.name }
    ∧ (((timelineApply json tm c).bind (fun t => timelineApply json t d)).bind
        (fun t => timelineApply json t u)).map (reported json) =
      some (reported json tm) := by
  have happd : ∀ t : Timeline, timelineApply json t d =
      some { t with history := kvErase t.history d.name } := by
    intro t
    unfold timelineApply
    rw [hdop, if_neg (by decide), if_neg (by decide), if_neg (by decide),
      if_pos rfl]
  constructor
  · exact happd tm
  · have happc : timelineApply json tm c = some (recordCreate tm c) := by
      unfold timelineApply
      rw [hcop, if_pos rfl]
    have hbind : ∀ (a : Timeline) (f : Timeline → Option Timeline),
        (some a).bind f = f a := fun a f => rfl
    rw [happc, hbind, happd (recordCreate tm c), hbind]
    rw [timelineApply_use json _ u (Or.inl huop)]
    have hlook : kvGet (kvErase (recordCreate tm c).history d.name) u.name =
        none := by
      rw [hn2, ← hn1]
      exact kvGet_kvErase_same (recordCreate tm c).history d.name
    rw [verifyUse_no_create json _ u hlook]
    cases json with
    | false => exact congrArg some (recordCreate_fields tm c).2.1
    | true => exact congrArg some (recordCreate_fields tm c).1

/-- DELETE action (with a failed syscall) on the witnesses' shared
identity. -/
def deleteA : GoInode :=
  { inodeNum := toL "5", device := toL "00:1", path := toL "x",
    mode := 0, operation := opDELETE, cwd := [], syscallSuccess := false }

/-- Witness for C4: the failed-syscall DELETE erases the recorded CREATE, and
the concrete CREATE, DELETE, NORMAL sequence reports nothing. -/
theorem delete_clears_history_witness :
    timelineApply true tmA deleteA =
      some { tmA with history := kvErase tmA.history deleteA.name }
    ∧ (((timelineApply true newTimeline createdA).bind
        (fun t => timelineApply true t deleteA)).bind
        (fun t => timelineApply true t useB)).map (reported true) =
      some (reported true newTimeline) := by
  have h1 := delete_clears_history true tmA createdA deleteA useB rfl rfl rfl
    rfl rfl
  have h2 := delete_clears_history true newTimeline createdA deleteA useB rfl
    rfl rfl rfl rfl
  exact ⟨h1.1, h2.2⟩

/-- A history entry that a CREATE may legitimately store: a CREATE operation
with a successful syscall and a non-sentinel path. -/
def goodCreate (i : GoInode) : Prop :=
  i.operation = opCREATE ∧ i.syscallSuccess = true ∧ i.path ≠ nullSentinel

/-- Invariant of the Timeline history: it holds only legitimate CREATEs. -/
def HistInv (h : List (List Char × GoInode)) : Prop :=
  ∀ p ∈ h, goodCreate p.2

/-- C5: applying any handled PATH operation preserves the history invariant —
every stored entry was put there by a successful, non-null CREATE. -/
theorem apply_preserves_HistInv (json : Bool) (tm : Timeline) (i : GoInode)
    (tm2 : Timeline) (hinv : HistInv tm.history)
    (hop : i.operation = opCREATE ∨ i.operation = opNORMAL ∨
      i.operation = opPARENT ∨ i.operation = opDELETE ∨
      i.operation = opUNKNOWN)
    (happ : timelineApply json tm i = some tm2) :
    HistInv tm2.history := by
  rcases hop with h | h | h | h | h
  · have h1 : timelineApply json tm i = some (recordCreate tm i) := by
      unfold timelineApply
      rw [h, if_pos rfl]
    rw [h1] at happ
    obtain rfl : recordCreate tm i = tm2 := Option.some.inj happ
    unfold recordCreate
    by_cases hsu : i.syscallSuccess = false
    · rw [if_pos hsu]
      exact hinv
    · rw [if_neg hsu]
      by_cases hnull : i.path = nullSentinel
      · rw [if_pos hnull]
        exact hinv
      · rw [if_neg hnull]
        intro p hp
        rcases mem_kvSet tm.history i.name i p hp with h2 | h2
        · rw [h2]
          have hsucc : i.syscallSuccess = true := by
            cases hb : i.syscallSuccess
            · exact absurd hb hsu
            · rfl
          exact ⟨h, hsucc, hnull⟩
        · exact hinv p h2
  · rw [timelineApply_use json tm i (Or.inl h)] at happ
    obtain rfl : verifyUse json tm i = tm2 := Option.some.inj happ
    rw [verifyUse_history json tm i]
    exact hinv
  · rw [timelineApply_use json tm i (Or.inr h)] at happ
    obtain rfl : verifyUse json tm i = tm2 := Option.some.inj happ
    rw [verifyUse_history json tm i]
    exact hinv
  · have h1 : timelineApply json tm i =
        some { tm with history := kvErase tm.history i.name } := by
      unfold timelineApply
      rw [h, if_neg (by decide), if_neg (by decide), if_neg (by decide),
        if_pos rfl]
    rw [h1] at happ
    obtain rfl := Option.some.inj happ
    intro p hp
    exact hinv p (mem_kvErase tm.history i.name p hp)
  · have h1 : timelineApply json tm i = some tm := by
      unfold timelineApply
      rw [h, if_neg (by decide), if_neg (by decide), if_neg (by decide),
        if_neg (by decide), if_pos rfl]
    rw [h1] at happ
    obtain rfl := Option.some.inj happ
    exact hinv

/-- Witness for C5: from the empty history, recording a successful CREATE
yields a history still satisfying the invariant. -/
theorem apply_preserves_HistInv_witness :
    HistInv (recordCreate newTimeline createdA).history := by
  have hinv : HistInv newTimeline.history := by
    intro p hp
    simp [newTimeline] at hp
  exact apply_preserves_HistInv true newTimeline createdA
    (recordCreate newTimeline createdA) hinv (Or.inl rfl) rfl

theorem verifyUse_true_fields (tm : Timeline) (i : GoInode) :
    (verifyUse true tm i).printed = tm.printed ∧
    (verifyUse true tm i).flushed = tm.flushed := by
  unfold verifyUse
  by_cases hs : i.syscallSuccess = false
  · rw [if_pos hs]
    exact ⟨rfl, rfl⟩
  · rw [if_neg hs]
    by_cases hn : i.path = nullSentinel
    · rw [if_pos hn]
      exact ⟨rfl, rfl⟩
    · rw [if_neg hn]
      cases hc : kvGet tm.history i.name with
      | none => exact ⟨rfl, rfl⟩
      | some c =>
        show ((if c.normalizedPath ≠ i.normalizedPath then
            timelineReport true tm c i else tm)).printed = tm.printed ∧
          ((if c.normalizedPath ≠ i.normalizedPath then
            timelineReport true tm c i else tm)).flushed = tm.flushed
        by_cases hm : c.normalizedPath ≠ i.normalizedPath
        · rw [if_pos hm]
          exact ⟨rfl, rfl⟩
        · rw [if_neg hm]
          exact ⟨rfl, rfl⟩

theorem timelineApply_true_fields (tm : Timeline) (i : GoInode)
    (tm2 : Timeline) (h : timelineApply true tm i = some tm2) :
    tm2.printed = tm.printed ∧ tm2.flushed = tm.flushed := by
  unfold timelineApply at h
  split at h
  · obtain rfl := Option.some.inj h
    exact ⟨(recordCreate_fields tm i).2.1, (recordCreate_fields tm i).2.2⟩
  · split at h
    · obtain rfl := Option.some.inj h
      exact verifyUse_true_fields tm i
    · split at h
      · obtain rfl := Option.some.inj h
        exact verifyUse_true_fields tm i
      · split at h
        · obtain rfl := Option.some.inj h
          exact ⟨rfl, rfl⟩
        · split at h
          · obtain rfl := Option.some.inj h
            exact ⟨rfl, rfl⟩
          · exact Option.noConfusion h

theorem applyInodesAux_true_fields (inodes : List GoInode) :
    ∀ (k : Nat) (tm tm2 : Timeline),
      applyInodesAux true inodes k tm = some tm2 →
      tm2.printed = tm.printed ∧ tm2.flushed = tm.flushed := by
  intro k
  induction k with
  | zero =>
    intro tm tm2 h
    obtain rfl := Option.some.inj h
    exact ⟨rfl, rfl⟩
  | succ k ih =>
    intro tm tm2 h
    have heq : applyInodesAux true inodes (k + 1) tm =
        (match timelineApply true tm (inodes.getD k default) with
         | none => none
         | some t => applyInodesAux true inodes k t) := rfl
    rw [heq] at h
    cases happ : timelineApply true tm (inodes.getD k default) with
    | none =>
      rw [happ] at h
      exact Option.noConfusion h
    | some t =>
      rw [happ] at h
      have h1 := timelineApply_true_fields tm _ t happ
      have h2 := ih t tm2 h
      exact ⟨h2.1.trans h1.1, h2.2.trans h1.2⟩

theorem run_events_true_fields :
    ∀ (events : List (List GoInode)) (tm0 tmf : Timeline),
      events.foldlM (fun tm ev => timelineApplyInodes true tm ev) tm0 =
        some tmf →
      tmf.printed = tm0.printed ∧ tmf.flushed = tm0.flushed := by
  intro events
  induction events with
  | nil =>
    intro tm0 tmf h
    rw [List.foldlM_nil] at h
    obtain rfl := Option.some.inj h
    exact ⟨rfl, rfl⟩
  | cons e rest ih =>
    intro tm0 tmf h
    rw [List.foldlM_cons] at h
    cases happ : timelineApplyInodes true tm0 e with
    | none =>
      rw [happ] at h
      exact Option.noConfusion h
    | some t1 =>
      rw [happ] at h
      have h1 := applyInodesAux_true_fields e e.length tm0 t1 happ
      have h2 := ih t1 tmf h
      exact ⟨h2.1.trans h1.1, h2.2.trans h1.2⟩

/-- C10: in buffered (JSON) mode nothing is printed or flushed while events
are applied; the single Close at the end of the run flushes exactly one
structured document holding the full ordered list of collected violations
when at least one was collected, and nothing when none were. -/
theorem buffered_flush_once (pretty : Bool) (events : List (List GoInode))
    (tmf : Timeline)
    (hrun : events.foldlM (fun tm ev => timelineApplyInodes true tm ev)
      newTimeline = some tmf) :
    runTimeline true pretty events = some (timelineClose pretty tmf)
    ∧ tmf.printed = [] ∧ tmf.flushed = []
    ∧ (timelineClose pretty tmf).flushed =
        (if tmf.reports = [] then [] else [tmf.reports])
    ∧ (timelineClose pretty tmf).reports = tmf.reports
    ∧ reported true (timelineClose pretty tmf) = tmf.reports := by
  have hf := run_events_true_fields events newTimeline tmf hrun
  have hpr : tmf.printed = [] := hf.1
  have hfl : tmf.flushed = [] := hf.2
  refine ⟨?_, hpr, hfl, ?_, ?_, ?_⟩
  · unfold runTimeline
    rw [hrun]
    rfl
  · unfold timelineClose processPendingRepots
    by_cases hr : tmf.reports = []
    · rw [if_pos hr, if_pos hr]
      exact hfl
    · rw [if_neg hr, if_neg hr]
      show tmf.flushed ++ [tmf.reports] = [tmf.reports]
      rw [hfl]
      rfl
  · unfold timelineClose processPendingRepots
    by_cases hr : tmf.reports = []
    · rw [if_pos hr]
    · rw [if_neg hr]
  · unfold timelineClose processPendingRepots reported
    by_cases hr : tmf.reports = []
    · rw [if_pos hr, if_pos rfl]
    · rw [if_neg hr, if_pos rfl]

/-- Final timeline of the witness run: one recorded CREATE and one collected
violation. -/
def tmf0 : Timeline :=
  { history := [(GoInode.name createdA, createdA)],
    reports := [{ create := createdA, use := useB }],
    printed := [], flushed := [] }

/-- Witness for C10: one event holding the USE then the CREATE (trace order),
replayed in reverse, collects exactly one violation, and Close emits it as
one document. -/
theorem buffered_flush_once_witness :
    runTimeline true false [[useB, createdA]] =
      some (timelineClose false tmf0)
    ∧ (timelineClose false tmf0).flushed =
        [[{ create := createdA, use := useB }]] := by
  have hrun : List.foldlM (fun tm ev => timelineApplyInodes true tm ev)
      newTimeline [[useB, createdA]] = some tmf0 := by decide
  have h := buffered_flush_once false [[useB, createdA]] tmf0 hrun
  refine ⟨h.1, ?_⟩
  rw [h.2.2.2.1, if_neg (by decide : ¬(tmf0.reports = []))]
  rfl
